import Mathlib

/-!
Shallow embedding of `flowlog_parser.py`, the AWS VPC flow-log tagging
pipeline, together with proofs of the specified properties.

The program reads a flow log (whitespace-delimited lines) and a lookup CSV
(`dstport,protocol,tag`), counts matched tags and (port, protocol)
combinations, and renders a sorted two-section report.

Modelling conventions:
  - Python strings are Lean `String`s (the program opens every file with
    `encoding="ascii"`, so the ASCII fragments of `str.strip`, `str.lower`
    and `str.split` are the relevant ones).
  - `csv.DictReader` is modelled by a header row (list of cell strings) and
    data rows (lists of cell strings); the reader skips empty rows and pads
    or collects cells with `None` when a row's length differs from the
    header's, which makes the (uncaught) `value.strip()` call fail — modelled
    by `Except.error`.
  - Python dictionaries keyed by strings or (int, string) pairs are
    association lists with overwrite-on-insert (`alSet`) and
    increment (`alIncr`); `dict.get` is `alGet`.
  - Python `int(s)` is `pyInt` (optional surrounding whitespace, optional
    sign, decimal digits with single underscores between digits).
-/

namespace FlowLog

/-- Characters stripped by Python `str.strip()` / split on by `str.split()`
(the ASCII whitespace set: TAB, LF, VT, FF, CR, FS, GS, RS, US, SPACE). -/
def pyIsSpace (c : Char) : Bool :=
  c.toNat = 32 || c.toNat = 9 || c.toNat = 10 || c.toNat = 11 || c.toNat = 12 ||
  c.toNat = 13 || c.toNat = 28 || c.toNat = 29 || c.toNat = 30 || c.toNat = 31

/-- Strip leading and trailing Python whitespace from a character list. -/
def pyStripList (cs : List Char) : List Char :=
  ((cs.dropWhile pyIsSpace).reverse.dropWhile pyIsSpace).reverse

/-- Python `str.strip()` (no argument form). -/
def pyStrip (s : String) : String :=
  String.mk (pyStripList s.data)

/-- Worker for `pySplit`: split on runs of whitespace, accumulating the
current (reversed) token. -/
def pySplitGo : List Char → List Char → List (List Char)
  | [], acc => if acc.isEmpty then [] else [acc.reverse]
  | c :: rest, acc =>
    if pyIsSpace c then
      if acc.isEmpty then pySplitGo rest [] else acc.reverse :: pySplitGo rest []
    else pySplitGo rest (c :: acc)

/-- Python `str.split()` (no argument form): split on runs of whitespace,
discarding empty tokens. -/
def pySplit (s : String) : List String :=
  (pySplitGo s.data []).map String.mk

/-- Lowercase one character (ASCII fragment of Python `str.lower()`). -/
def pyLowerChar (c : Char) : Char :=
  if 65 ≤ c.toNat ∧ c.toNat ≤ 90 then Char.ofNat (c.toNat + 32) else c

/-- Python `str.lower()` on ASCII strings. -/
def pyLower (s : String) : String :=
  String.mk (s.data.map pyLowerChar)

/-- Digit-group check of Python `int()`: nonempty, all decimal digits, a
single underscore allowed only between two digits. -/
def digitsUOk : List Char → Bool
  | [] => false
  | [c] => c.isDigit
  | c :: '_' :: rest => c.isDigit && digitsUOk rest
  | c :: rest => c.isDigit && digitsUOk rest

/-- Numeric value of a digit group (underscores ignored). -/
def digitsVal (cs : List Char) : Nat :=
  (cs.filter (fun c => c ≠ '_')).foldl (fun a c => a * 10 + (c.toNat - 48)) 0

/-- Python `int(s)`: strip whitespace, optional single sign, decimal digits
with underscores between digits; `none` models a raised `ValueError`. -/
def pyInt (s : String) : Option Int :=
  match (pyStrip s).data with
  | '+' :: rest => if digitsUOk rest then some (digitsVal rest : Int) else none
  | '-' :: rest => if digitsUOk rest then some (-(digitsVal rest : Int)) else none
  | cs => if digitsUOk cs then some (digitsVal cs : Int) else none

/-- Association-list lookup with decidable key equality (Python `dict.get`
on a dict whose keys are unique). -/
def alGet {α β : Type} [DecidableEq α] (k : α) : List (α × β) → Option β
  | [] => none
  | (k', v) :: rest => if k' = k then some v else alGet k rest

/-- Association-list insert with overwrite (Python `dict.__setitem__`):
an existing binding for the key is replaced in place, otherwise the new
binding is appended. -/
def alSet {α β : Type} [DecidableEq α] (d : List (α × β)) (k : α) (v : β) :
    List (α × β) :=
  match d with
  | [] => [(k, v)]
  | (k', v') :: rest => if k' = k then (k, v) :: rest else (k', v') :: alSet rest k v

/-- Counter increment (Python `defaultdict(int)` update `d[k] += 1`). -/
def alIncr {α : Type} [DecidableEq α] (d : List (α × Nat)) (k : α) :
    List (α × Nat) :=
  match d with
  | [] => [(k, 1)]
  | (k', v) :: rest => if k' = k then (k, v + 1) :: rest else (k', v) :: alIncr rest k

/-- Result of `FlowLogParser.load_lookup`: the lookup dict mapping
`(dstport, protocol)` to a tag, plus the stderr diagnostics emitted. -/
structure LoadState where
  lookup : List ((Int × String) × String)
  diags : List String
deriving DecidableEq

/-- Accumulator state of `FlowLogParser.parse_flow_logs`: the two counting
dicts `tag_counts` and `port_proto_counts`, plus stderr diagnostics. -/
structure ParseState where
  tag_counts : List (String × Nat)
  port_proto_counts : List ((Int × String) × Nat)
  diags : List String
deriving DecidableEq

/-- Lookup in the per-row dict built by `csv.DictReader` plus the key/value
strip comprehension: when duplicate (stripped) header names collide, the
later binding wins, as in a Python dict built left to right. -/
def dictGet (d : List (String × String)) (k : String) : Option String :=
  alGet k d.reverse

/-- Per-row body of the `try` block in `load_lookup` (lines 53–56 of the
source): read the `dstport`, `protocol` and `tag` cells of the stripped row
dict, parse the port with `int(...)`, lowercase the protocol.  `none` models
any exception caught by the `except` clause (missing header column,
non-numeric port). -/
def parseRow (header row : List String) : Option ((Int × String) × String) :=
  let d := (header.zip row).map (fun p => (pyStrip p.1, pyStrip p.2))
  match dictGet d "dstport", dictGet d "protocol", dictGet d "tag" with
  | some ds, some ps, some ts =>
    match pyInt (pyStrip ds) with
    | some port => some ((port, pyLower (pyStrip ps)), pyStrip ts)
    | none => none
  | _, _, _ => none

/-- The row loop of `load_lookup`.  `csv.DictReader` skips empty rows; a row
whose cell count differs from the header's puts `None` values (or a `None`
key) in the row dict, so the strip comprehension on line 51 — which sits
outside the `try` — raises an uncaught `AttributeError`, modelled by
`Except.error`.  A row whose `try` body raises is skipped with a diagnostic. -/
def loadRows (header : List String) : List (List String) → LoadState → Except String LoadState
  | [], st => .ok st
  | row :: rest, st =>
    if row.isEmpty then loadRows header rest st
    else if row.length = header.length then
      match parseRow header row with
      | some (k, t) => loadRows header rest { st with lookup := alSet st.lookup k t }
      | none =>
        loadRows header rest
          { st with diags := st.diags ++ ["Skipping lookup row due to error"] }
    else .error "AttributeError: NoneType has no attribute strip"

/-- Embedding of `FlowLogParser.load_lookup`, starting from the empty lookup dict. -/
def load_lookup (header : List String) (rows : List (List String)) :
    Except String LoadState :=
  loadRows header rows ⟨[], []⟩

/-- The module-level `PROTOCOL_MAP` constant. -/
def PROTOCOL_MAP : List (Int × String) := [(6, "tcp"), (17, "udp"), (1, "icmp")]

/-- Line 97 of the source: `PROTOCOL_MAP.get(proto_num, str(proto_num)).lower()`. -/
def protoName (n : Int) : String :=
  pyLower ((alGet n PROTOCOL_MAP).getD (toString n))

/-- One iteration of the line loop of `parse_flow_logs` (lines 82–100):
skip blank lines silently, skip lines with fewer than 8 fields or a
non-integer field 6 or 7 with a diagnostic, otherwise bump both counters. -/
def process_line (lookup : List ((Int × String) × String)) (st : ParseState)
    (line : String) : ParseState :=
  if pyStrip line = "" then st
  else
    let fields := pySplit (pyStrip line)
    if fields.length < 8 then
      { st with diags := st.diags ++ ["Skipping malformed line: " ++ line] }
    else
      match pyInt (fields.getD 6 ""), pyInt (fields.getD 7 "") with
      | some dstport, some proto_num =>
        { st with
          port_proto_counts := alIncr st.port_proto_counts (dstport, protoName proto_num),
          tag_counts :=
            alIncr st.tag_counts
              ((alGet (dstport, protoName proto_num) lookup).getD "Untagged") }
      | _, _ =>
        { st with diags := st.diags ++ ["Error parsing numeric values in line: " ++ line] }

/-- Embedding of `FlowLogParser.parse_flow_logs` over the input lines, starting
from the empty counters set up in `__init__`. -/
def parse_flow_logs (lookup : List ((Int × String) × String))
    (lines : List String) : ParseState :=
  lines.foldl (process_line lookup) ⟨[], [], []⟩

/-- Boolean order used by `sorted(self.tag_counts.keys())`: Python compares
strings lexicographically by code point, which is the `String` linear order. -/
def strLeB (a b : String) : Bool :=
  decide (a ≤ b)

/-- Propositional lexicographic order on (port, protocol) pairs, as compared
by Python tuples `(x[0], x[1])`. -/
def ppLe (a b : Int × String) : Prop :=
  a.1 < b.1 ∨ (a.1 = b.1 ∧ a.2 ≤ b.2)

/-- Strict lexicographic order on (port, protocol) pairs. -/
def ppLt (a b : Int × String) : Prop :=
  a.1 < b.1 ∨ (a.1 = b.1 ∧ a.2 < b.2)

instance (a b : Int × String) : Decidable (ppLe a b) := by
  unfold ppLe; infer_instance

deriving instance DecidableEq for Except

/-- Boolean form of `ppLe`, used by the sort in `write_output`. -/
def ppLeB (a b : Int × String) : Bool :=
  decide (ppLe a b)

/-- The iteration order of the first report section:
`sorted(self.tag_counts.keys())` (line 109). -/
def sortedTagKeys (tc : List (String × Nat)) : List String :=
  (tc.map Prod.fst).mergeSort strLeB

/-- The iteration order of the second report section:
`sorted(self.port_proto_counts.keys(), key=lambda x: (x[0], x[1]))` (line 114). -/
def sortedPPKeys (pp : List ((Int × String) × Nat)) : List (Int × String) :=
  (pp.map Prod.fst).mergeSort ppLeB

/-- One body row of the first report section: `f"{tag},{count}\n"`. -/
def tagLine (tc : List (String × Nat)) (t : String) : String :=
  t ++ "," ++ toString ((alGet t tc).getD 0) ++ "\n"

/-- One body row of the second report section: `f"{port},{proto},{count}\n"`. -/
def ppLine (pp : List ((Int × String) × Nat)) (k : Int × String) : String :=
  toString k.1 ++ "," ++ k.2 ++ "," ++ toString ((alGet k pp).getD 0) ++ "\n"

/-- Embedding of `FlowLogParser.write_output`: the full report text. -/
def write_output (st : ParseState) : String :=
  "Tag Counts:\n" ++ "Tag,Count\n" ++
    String.join ((sortedTagKeys st.tag_counts).map (tagLine st.tag_counts)) ++
  "\n" ++ "Port/Protocol Combination Counts:\n" ++ "Port,Protocol,Count\n" ++
    String.join ((sortedPPKeys st.port_proto_counts).map (ppLine st.port_proto_counts))

/-- Embedding of `FlowLogParser.run`: load the lookup, parse the log, render the report.
A load-time crash propagates; file-level I/O is out of scope. -/
def run (header : List String) (rows : List (List String))
    (lines : List String) : Except String String :=
  match load_lookup header rows with
  | .error e => .error e
  | .ok ls => .ok (write_output (parse_flow_logs ls.lookup lines))

/-- A line that the classifier accepts: non-blank, at least 8 fields, and
integer-parseable fields 6 and 7. -/
def validLine (line : String) : Bool :=
  decide (pyStrip line ≠ "") && decide (8 ≤ (pySplit (pyStrip line)).length) &&
  (pyInt ((pySplit (pyStrip line)).getD 6 "")).isSome &&
  (pyInt ((pySplit (pyStrip line)).getD 7 "")).isSome

/-- The (port, protocol-name) key a valid line contributes, `none` for a
skipped line. -/
def lineKey (line : String) : Option (Int × String) :=
  if pyStrip line = "" then none
  else
    let fields := pySplit (pyStrip line)
    if fields.length < 8 then none
    else
      match pyInt (fields.getD 6 ""), pyInt (fields.getD 7 "") with
      | some p, some n => some (p, protoName n)
      | _, _ => none

/-- Sum of the values of a counting dict. -/
def sumVals {α : Type} (d : List (α × Nat)) : Nat :=
  (d.map Prod.snd).sum

/-- Tag of the last row of `rows` that parses to key `k`, if any: the value
overwrite semantics of repeated `self.lookup[(port, proto)] = tag` leaves
in the dict. -/
def lastTag (header : List String) (rows : List (List String)) (k : Int × String) :
    Option String :=
  match rows with
  | [] => none
  | r :: rest =>
    match lastTag header rest k with
    | some t => some t
    | none =>
      match parseRow header r with
      | some (k', t) => if k' = k then some t else none
      | none => none

/-- The tag a valid line is counted under (`lookup.get(key, "Untagged")`),
`none` for a skipped line. -/
def resolvedTag (lookup : List ((Int × String) × String)) (line : String) :
    Option String :=
  (lineKey line).map (fun k => (alGet k lookup).getD "Untagged")

/-- A line counted against a lookup rule whose tag is literally "Untagged". -/
def matchedUntagged (lookup : List ((Int × String) × String)) (line : String) : Bool :=
  match lineKey line with
  | some k => decide (alGet k lookup = some "Untagged")
  | none => false

/-- A valid line matched by no lookup rule at all. -/
def unmatchedLine (lookup : List ((Int × String) × String)) (line : String) : Bool :=
  match lineKey line with
  | some k => (alGet k lookup).isNone
  | none => false

theorem alGet_alSet_self {α β : Type} [DecidableEq α] (d : List (α × β)) (k : α) (v : β) :
    alGet k (alSet d k v) = some v := by
  induction d with
  | nil => simp [alSet, alGet]
  | cons hd tl ih =>
    obtain ⟨k', v'⟩ := hd
    by_cases h : k' = k
    · subst h; simp [alSet, alGet]
    · simp [alSet, alGet, h, ih]

theorem alGet_alSet_ne {α β : Type} [DecidableEq α] (d : List (α × β)) {k k' : α} (v : β)
    (h : k' ≠ k) : alGet k' (alSet d k v) = alGet k' d := by
  have h' : ¬ k = k' := fun hh => h (Eq.symm hh)
  induction d with
  | nil => simp [alSet, alGet, h']
  | cons hd tl ih =>
    obtain ⟨k₀, v₀⟩ := hd
    by_cases h0 : k₀ = k
    · subst h0
      simp [alSet, alGet, h']
    · simp [alSet, alGet, h0, ih]

theorem alGet_isSome_alSet {α β : Type} [DecidableEq α] (d : List (α × β)) (k k' : α) (v : β)
    (h : (alGet k' d).isSome) : (alGet k' (alSet d k v)).isSome := by
  by_cases hk : k' = k
  · subst hk; simp [alGet_alSet_self]
  · rwa [alGet_alSet_ne d v hk]

theorem mem_alSet {α β : Type} [DecidableEq α] :
    ∀ (d : List (α × β)) (k : α) (v : β) (e : α × β),
      e ∈ alSet d k v → e ∈ d ∨ e = (k, v)
  | [], k, v, e => by
    intro h
    simpa [alSet] using h
  | (k₀, v₀) :: tl, k, v, e => by
    intro h
    by_cases h0 : k₀ = k
    · subst h0
      have heq : alSet ((k₀, v₀) :: tl) k₀ v = (k₀, v) :: tl := by simp [alSet]
      rw [heq] at h
      rcases List.mem_cons.mp h with h1 | h1
      · exact Or.inr h1
      · exact Or.inl (List.mem_cons_of_mem _ h1)
    · have heq : alSet ((k₀, v₀) :: tl) k v = (k₀, v₀) :: alSet tl k v := by
        simp [alSet, h0]
      rw [heq] at h
      rcases List.mem_cons.mp h with h1 | h1
      · exact Or.inl (List.mem_cons.mpr (Or.inl h1))
      · rcases mem_alSet tl k v e h1 with h' | h'
        · exact Or.inl (List.mem_cons_of_mem _ h')
        · exact Or.inr h'

theorem mem_keys_alIncr {α : Type} [DecidableEq α] (d : List (α × Nat)) (k x : α) :
    x ∈ (alIncr d k).map Prod.fst ↔ x ∈ d.map Prod.fst ∨ x = k := by
  induction d with
  | nil => simp [alIncr]
  | cons hd tl ih =>
    obtain ⟨k₀, v₀⟩ := hd
    by_cases h0 : k₀ = k
    · subst h0; simp [alIncr]; tauto
    · simp [alIncr, h0, ih]; tauto

theorem nodup_keys_alIncr {α : Type} [DecidableEq α] (d : List (α × Nat)) (k : α)
    (h : (d.map Prod.fst).Nodup) : ((alIncr d k).map Prod.fst).Nodup := by
  induction d with
  | nil => simp [alIncr]
  | cons hd tl ih =>
    obtain ⟨k₀, v₀⟩ := hd
    simp only [List.map_cons, List.nodup_cons] at h
    by_cases h0 : k₀ = k
    · subst h0
      simp [alIncr, List.nodup_cons, h.1, h.2]
    · simp only [alIncr, if_neg h0, List.map_cons, List.nodup_cons]
      refine ⟨fun hmem => ?_, ih h.2⟩
      rcases (mem_keys_alIncr tl k k₀).mp hmem with hm | hm
      · exact h.1 hm
      · exact h0 hm

theorem sumVals_alIncr {α : Type} [DecidableEq α] (d : List (α × Nat)) (k : α) :
    sumVals (alIncr d k) = sumVals d + 1 := by
  induction d with
  | nil => simp [alIncr, sumVals]
  | cons hd tl ih =>
    obtain ⟨k₀, v₀⟩ := hd
    by_cases h0 : k₀ = k
    · subst h0; simp [alIncr, sumVals]; omega
    · simp only [alIncr, if_neg h0, sumVals, List.map_cons, List.sum_cons] at ih ⊢
      omega

theorem alGet_alIncr {α : Type} [DecidableEq α] (d : List (α × Nat)) (k t : α) :
    (alGet t (alIncr d k)).getD 0 =
      (alGet t d).getD 0 + if k = t then 1 else 0 := by
  induction d with
  | nil =>
    by_cases h : k = t <;> simp [alIncr, alGet, h]
  | cons hd tl ih =>
    obtain ⟨k₀, v₀⟩ := hd
    by_cases h0 : k₀ = k
    · subst h0
      by_cases h : k₀ = t <;> simp [alIncr, alGet, h]
    · by_cases h : k₀ = t
      · subst h
        have hkt : ¬ k = k₀ := fun hh => h0 hh.symm
        simp [alIncr, alGet, h0, hkt]
      · simp [alIncr, alGet, h0, h, ih]

theorem process_line_blank (lookup : List ((Int × String) × String)) (st : ParseState)
    (line : String) (h : pyStrip line = "") : process_line lookup st line = st := by
  simp [process_line, h]

theorem process_line_short (lookup : List ((Int × String) × String)) (st : ParseState)
    (line : String) (h1 : pyStrip line ≠ "")
    (h2 : (pySplit (pyStrip line)).length < 8) :
    process_line lookup st line =
      { st with diags := st.diags ++ ["Skipping malformed line: " ++ line] } := by
  simp [process_line, h1, h2]

theorem process_line_valid (lookup : List ((Int × String) × String)) (st : ParseState)
    (line : String) (p n : Int) (h1 : pyStrip line ≠ "")
    (h2 : 8 ≤ (pySplit (pyStrip line)).length)
    (hp : pyInt ((pySplit (pyStrip line)).getD 6 "") = some p)
    (hn : pyInt ((pySplit (pyStrip line)).getD 7 "") = some n) :
    process_line lookup st line =
      { st with
        port_proto_counts := alIncr st.port_proto_counts (p, protoName n),
        tag_counts :=
          alIncr st.tag_counts ((alGet (p, protoName n) lookup).getD "Untagged") } := by
  have h2' : ¬ (pySplit (pyStrip line)).length < 8 := by omega
  simp only [List.getD_eq_getElem?_getD] at hp hn
  simp [process_line, h1, h2', hp, hn]

theorem process_line_badnum (lookup : List ((Int × String) × String)) (st : ParseState)
    (line : String) (h1 : pyStrip line ≠ "")
    (h2 : 8 ≤ (pySplit (pyStrip line)).length)
    (h3 : pyInt ((pySplit (pyStrip line)).getD 6 "") = none ∨
          pyInt ((pySplit (pyStrip line)).getD 7 "") = none) :
    process_line lookup st line =
      { st with diags := st.diags ++ ["Error parsing numeric values in line: " ++ line] } := by
  have h2' : ¬ (pySplit (pyStrip line)).length < 8 := by omega
  rcases hp : pyInt ((pySplit (pyStrip line)).getD 6 "") with _ | p
  · have hp' := hp
    simp only [List.getD_eq_getElem?_getD] at hp'
    simp [process_line, h1, h2', hp']
  · rcases hq : pyInt ((pySplit (pyStrip line)).getD 7 "") with _ | q
    · have hp' := hp
      have hq' := hq
      simp only [List.getD_eq_getElem?_getD] at hp' hq'
      simp [process_line, h1, h2', hp', hq']
    · exfalso
      rcases h3 with h3 | h3
      · rw [hp] at h3; exact Option.noConfusion h3
      · rw [hq] at h3; exact Option.noConfusion h3

theorem lineKey_isSome_eq_validLine (line : String) :
    (lineKey line).isSome = validLine line := by
  unfold lineKey validLine
  by_cases h1 : pyStrip line = ""
  · simp [h1]
  · by_cases h2 : (pySplit (pyStrip line)).length < 8
    · have h2' : ¬ 8 ≤ (pySplit (pyStrip line)).length := by omega
      simp [h1, h2, h2']
    · have h2' : 8 ≤ (pySplit (pyStrip line)).length := by omega
      rcases hp : pyInt ((pySplit (pyStrip line)).getD 6 "") with _ | p <;>
        rcases hq : pyInt ((pySplit (pyStrip line)).getD 7 "") with _ | q <;>
          simp only [List.getD_eq_getElem?_getD] at hp hq <;>
            simp [h1, h2, h2', hp, hq]

theorem process_line_of_lineKey_some (lookup : List ((Int × String) × String))
    (st : ParseState) (line : String) (k : Int × String) (h : lineKey line = some k) :
    process_line lookup st line =
      { st with
        port_proto_counts := alIncr st.port_proto_counts k,
        tag_counts := alIncr st.tag_counts ((alGet k lookup).getD "Untagged") } := by
  unfold lineKey at h
  by_cases h1 : pyStrip line = ""
  · rw [if_pos h1] at h; exact Option.noConfusion h
  · rw [if_neg h1] at h
    by_cases h2 : (pySplit (pyStrip line)).length < 8
    · simp only [h2, if_pos] at h; exact Option.noConfusion h
    · have h2' : 8 ≤ (pySplit (pyStrip line)).length := by omega
      simp only [h2, if_false, if_neg] at h
      rcases hp : pyInt ((pySplit (pyStrip line)).getD 6 "") with _ | p <;>
        rcases hq : pyInt ((pySplit (pyStrip line)).getD 7 "") with _ | q <;>
          rw [hp, hq] at h
      · exact Option.noConfusion h
      · exact Option.noConfusion h
      · exact Option.noConfusion h
      · have hk : k = (p, protoName q) := by
          have := h
          simp at this
          exact this.symm
        subst hk
        exact process_line_valid lookup st line p q h1 h2' hp hq

theorem process_line_of_lineKey_none (lookup : List ((Int × String) × String))
    (st : ParseState) (line : String) (h : lineKey line = none) :
    (process_line lookup st line).tag_counts = st.tag_counts ∧
    (process_line lookup st line).port_proto_counts = st.port_proto_counts := by
  unfold lineKey at h
  by_cases h1 : pyStrip line = ""
  · rw [process_line_blank lookup st line h1]; exact ⟨rfl, rfl⟩
  · rw [if_neg h1] at h
    by_cases h2 : (pySplit (pyStrip line)).length < 8
    · rw [process_line_short lookup st line h1 h2]; exact ⟨rfl, rfl⟩
    · have h2' : 8 ≤ (pySplit (pyStrip line)).length := by omega
      simp only [h2, if_false, if_neg] at h
      rcases hp : pyInt ((pySplit (pyStrip line)).getD 6 "") with _ | p <;>
        rcases hq : pyInt ((pySplit (pyStrip line)).getD 7 "") with _ | q <;>
          rw [hp, hq] at h
      · rw [process_line_badnum lookup st line h1 h2' (Or.inl hp)]; exact ⟨rfl, rfl⟩
      · rw [process_line_badnum lookup st line h1 h2' (Or.inl hp)]; exact ⟨rfl, rfl⟩
      · rw [process_line_badnum lookup st line h1 h2' (Or.inr hq)]; exact ⟨rfl, rfl⟩
      · exact Option.noConfusion h

theorem parse_fold_sums (lookup : List ((Int × String) × String)) :
    ∀ (lines : List String) (st : ParseState),
      sumVals ((lines.foldl (process_line lookup) st).tag_counts) =
        sumVals st.tag_counts + lines.countP validLine ∧
      sumVals ((lines.foldl (process_line lookup) st).port_proto_counts) =
        sumVals st.port_proto_counts + lines.countP validLine
  | [], st => by simp
  | line :: rest, st => by
    have ih := parse_fold_sums lookup rest (process_line lookup st line)
    rcases hk : lineKey line with _ | k
    · have hv : validLine line = false := by
        rw [← lineKey_isSome_eq_validLine, hk]; rfl
      have hc := process_line_of_lineKey_none lookup st line hk
      have hcp : (line :: rest).countP validLine = rest.countP validLine := by
        simp [List.countP_cons, hv]
      refine ⟨?_, ?_⟩
      · rw [List.foldl_cons, hcp, ih.1, hc.1]
      · rw [List.foldl_cons, hcp, ih.2, hc.2]
    · have hv : validLine line = true := by
        rw [← lineKey_isSome_eq_validLine, hk]; rfl
      have hpl := process_line_of_lineKey_some lookup st line k hk
      have hcp : (line :: rest).countP validLine = rest.countP validLine + 1 := by
        simp [List.countP_cons, hv]
      refine ⟨?_, ?_⟩
      · rw [List.foldl_cons, ih.1, hpl]
        simp only [sumVals_alIncr, hcp]
        omega
      · rw [List.foldl_cons, ih.2, hpl]
        simp only [sumVals_alIncr, hcp]
        omega

theorem parse_fold_nodup (lookup : List ((Int × String) × String)) :
    ∀ (lines : List String) (st : ParseState),
      (st.tag_counts.map Prod.fst).Nodup →
      (st.port_proto_counts.map Prod.fst).Nodup →
      ((lines.foldl (process_line lookup) st).tag_counts.map Prod.fst).Nodup ∧
      ((lines.foldl (process_line lookup) st).port_proto_counts.map Prod.fst).Nodup
  | [], st => fun h1 h2 => ⟨h1, h2⟩
  | line :: rest, st => by
    intro h1 h2
    rw [List.foldl_cons]
    rcases hk : lineKey line with _ | k
    · have hc := process_line_of_lineKey_none lookup st line hk
      exact parse_fold_nodup lookup rest _ (hc.1 ▸ h1) (hc.2 ▸ h2)
    · have hpl := process_line_of_lineKey_some lookup st line k hk
      rw [hpl]
      exact parse_fold_nodup lookup rest _
        (nodup_keys_alIncr _ _ h1) (nodup_keys_alIncr _ _ h2)

theorem parse_fold_tagcount (lookup : List ((Int × String) × String)) (t : String) :
    ∀ (lines : List String) (st : ParseState),
      (alGet t ((lines.foldl (process_line lookup) st).tag_counts)).getD 0 =
        (alGet t st.tag_counts).getD 0 +
          lines.countP (fun l => decide (resolvedTag lookup l = some t))
  | [], st => by simp
  | line :: rest, st => by
    have ih := parse_fold_tagcount lookup t rest (process_line lookup st line)
    rw [List.foldl_cons, List.countP_cons, ih]
    rcases hk : lineKey line with _ | k
    · have hc := process_line_of_lineKey_none lookup st line hk
      have hr : resolvedTag lookup line = none := by simp [resolvedTag, hk]
      simp [hc.1, hr]
    · have hpl := process_line_of_lineKey_some lookup st line k hk
      have hr : resolvedTag lookup line = some ((alGet k lookup).getD "Untagged") := by
        simp [resolvedTag, hk]
      rw [hpl]
      simp only [alGet_alIncr, hr]
      by_cases ht : (alGet k lookup).getD "Untagged" = t
      · simp [ht]; omega
      · have ht' : ¬ (some ((alGet k lookup).getD "Untagged") = some t) := by
          intro hh; exact ht (Option.some.inj hh)
        simp [ht, ht']

theorem countP_or_disjoint {α : Type} (p q : α → Bool) :
    ∀ l : List α, (∀ a ∈ l, ¬(p a = true ∧ q a = true)) →
      l.countP (fun a => p a || q a) = l.countP p + l.countP q
  | [], _ => by simp
  | a :: l, h => by
    have ih := countP_or_disjoint p q l (fun b hb => h b (List.mem_cons_of_mem _ hb))
    have ha := h a (List.mem_cons_self a l)
    simp only [List.countP_cons, ih]
    by_cases hp : p a = true
    · have hq : ¬ q a = true := fun hq => ha ⟨hp, hq⟩
      simp [hp, hq]; omega
    · by_cases hq : q a = true
      · simp [hp, hq]; omega
      · simp [hp, hq]

theorem countP_ext {α : Type} (p q : α → Bool) :
    ∀ l : List α, (∀ a ∈ l, p a = q a) → l.countP p = l.countP q
  | [], _ => by simp
  | a :: l, h => by
    have ih := countP_ext p q l (fun b hb => h b (List.mem_cons_of_mem _ hb))
    have ha := h a (List.mem_cons_self a l)
    simp [List.countP_cons, ih, ha]

theorem char_toNat_ofNat {n : Nat} (h : n < 55296) : (Char.ofNat n).toNat = n := by
  have hv : n.isValidChar := Or.inl h
  rw [Char.ofNat, dif_pos hv]
  rfl

theorem pyLowerChar_idem (c : Char) : pyLowerChar (pyLowerChar c) = pyLowerChar c := by
  unfold pyLowerChar
  by_cases h : 65 ≤ c.toNat ∧ c.toNat ≤ 90
  · rw [if_pos h]
    have h2 : (Char.ofNat (c.toNat + 32)).toNat = c.toNat + 32 :=
      char_toNat_ofNat (by omega)
    rw [if_neg (by rw [h2]; omega)]
  · rw [if_neg h, if_neg h]

theorem pyLower_idem (s : String) : pyLower (pyLower s) = pyLower s := by
  have hf : ∀ c, (pyLowerChar ∘ pyLowerChar) c = pyLowerChar c := pyLowerChar_idem
  simp [pyLower, List.map_map, funext hf]

theorem pyIsSpace_false_of_ge {c : Char} (h : 33 ≤ c.toNat) : pyIsSpace c = false := by
  unfold pyIsSpace
  simp only [Bool.or_eq_false_iff, decide_eq_false_iff_not]
  omega

theorem pyIsSpace_pyLowerChar (c : Char) : pyIsSpace (pyLowerChar c) = pyIsSpace c := by
  unfold pyLowerChar
  by_cases h : 65 ≤ c.toNat ∧ c.toNat ≤ 90
  · rw [if_pos h]
    rw [pyIsSpace_false_of_ge (c := Char.ofNat (c.toNat + 32))
      (by rw [char_toNat_ofNat (by omega)]; omega)]
    rw [pyIsSpace_false_of_ge (by omega)]
  · rw [if_neg h]

theorem dropWhile_map_pyLowerChar (l : List Char) :
    (l.map pyLowerChar).dropWhile pyIsSpace =
      (l.dropWhile pyIsSpace).map pyLowerChar := by
  induction l with
  | nil => simp
  | cons c rest ih =>
    by_cases hc : pyIsSpace c = true
    · have hc' : pyIsSpace (pyLowerChar c) = true := by rw [pyIsSpace_pyLowerChar]; exact hc
      simp [List.dropWhile_cons, hc, hc', ih]
    · have hc' : ¬ pyIsSpace (pyLowerChar c) = true := by rw [pyIsSpace_pyLowerChar]; exact hc
      simp [List.dropWhile_cons, hc, hc']

theorem pyStripList_map_pyLowerChar (l : List Char) :
    pyStripList (l.map pyLowerChar) = (pyStripList l).map pyLowerChar := by
  unfold pyStripList
  rw [dropWhile_map_pyLowerChar, ← List.map_reverse, dropWhile_map_pyLowerChar,
    ← List.map_reverse]

theorem pyStrip_pyLower (s : String) : pyStrip (pyLower s) = pyLower (pyStrip s) := by
  simp [pyStrip, pyLower, pyStripList_map_pyLowerChar]

theorem noLeadSpace_pyStripList (l : List Char) :
    (pyStripList l).dropWhile pyIsSpace = pyStripList l := by
  unfold pyStripList
  rcases hd : l.dropWhile pyIsSpace with _ | ⟨c, rest⟩
  · simp
  · have hc : ¬ pyIsSpace c = true := by
      have := List.head?_dropWhile_not pyIsSpace l
      rw [hd] at this
      simpa using this
    rw [show ((c :: rest).reverse = rest.reverse ++ [c]) by simp]
    rw [List.dropWhile_append]
    by_cases he : (rest.reverse.dropWhile pyIsSpace).isEmpty = true
    · rw [if_pos he]
      simp [List.dropWhile_cons, hc]
    · rw [if_neg he]
      rw [List.reverse_append]
      simp [List.dropWhile_cons, hc]

theorem pyStripList_idem (l : List Char) : pyStripList (pyStripList l) = pyStripList l := by
  have h1 : (pyStripList l).dropWhile pyIsSpace = pyStripList l := noLeadSpace_pyStripList l
  show ((((pyStripList l).dropWhile pyIsSpace).reverse).dropWhile pyIsSpace).reverse = _
  rw [h1]
  unfold pyStripList
  rw [List.reverse_reverse, List.dropWhile_idempotent]

theorem pyStrip_idem (s : String) : pyStrip (pyStrip s) = pyStrip s := by
  simp [pyStrip, pyStripList_idem]

theorem pyLowerChar_digitChar : ∀ m : Nat, m < 10 → pyLowerChar (Nat.digitChar m) = Nat.digitChar m := by
  decide

theorem toDigitsCore_lower (fuel : Nat) :
    ∀ (n : Nat) (ds : List Char), (∀ c ∈ ds, pyLowerChar c = c) →
      ∀ c ∈ Nat.toDigitsCore 10 fuel n ds, pyLowerChar c = c := by
  induction fuel with
  | zero => intro n ds hds c hc; exact hds c hc
  | succ fuel ih =>
    intro n ds hds c hc
    rw [Nat.toDigitsCore] at hc
    have hdigit : pyLowerChar (Nat.digitChar (n % 10)) = Nat.digitChar (n % 10) :=
      pyLowerChar_digitChar _ (Nat.mod_lt _ (by omega))
    by_cases hq : n / 10 = 0
    · rw [if_pos hq] at hc
      rcases List.mem_cons.mp hc with h | h
      · rw [h]; exact hdigit
      · exact hds c h
    · rw [if_neg hq] at hc
      refine ih (n / 10) (Nat.digitChar (n % 10) :: ds) ?_ c hc
      intro c' hc'
      rcases List.mem_cons.mp hc' with h | h
      · rw [h]; exact hdigit
      · exact hds c' h

theorem pyLower_eq_self_of_chars (s : String) (h : ∀ c ∈ s.data, pyLowerChar c = c) :
    pyLower s = s := by
  cases s with
  | mk l =>
    show String.mk (l.map pyLowerChar) = String.mk l
    rw [List.map_congr_left h, List.map_id']

theorem pyLower_natRepr (n : Nat) : pyLower (Nat.repr n) = Nat.repr n := by
  apply pyLower_eq_self_of_chars
  intro c hc
  exact toDigitsCore_lower (n + 1) n [] (by simp) c hc

theorem pyLower_toString_int (i : Int) : pyLower (toString i) = toString i := by
  cases i with
  | ofNat m => exact pyLower_natRepr m
  | negSucc m =>
    show pyLower ("-" ++ Nat.repr (m + 1)) = "-" ++ Nat.repr (m + 1)
    apply pyLower_eq_self_of_chars
    intro c hc
    rw [String.data_append] at hc
    rcases List.mem_append.mp hc with h | h
    · have : c = '-' := by simpa using h
      rw [this]; decide
    · exact toDigitsCore_lower (m + 1 + 1) (m + 1) [] (by simp) c h

theorem parseRow_nil (header : List String) : parseRow header [] = none := by
  simp [parseRow, dictGet, alGet, List.zip_nil_right]

theorem loadRows_ok (header : List String) :
    ∀ (rows : List (List String)) (st0 : LoadState),
      (∀ r ∈ rows, r = [] ∨ r.length = header.length) →
      ∃ st, loadRows header rows st0 = .ok st ∧
        st.diags.length = st0.diags.length +
          rows.countP (fun r => !r.isEmpty && (parseRow header r).isNone) ∧
        (∀ k : Int × String, (alGet k st0.lookup).isSome → (alGet k st.lookup).isSome) ∧
        (∀ r ∈ rows, ∀ (k : Int × String) (t : String),
          parseRow header r = some (k, t) → (alGet k st.lookup).isSome)
  | [], st0 => fun _ => ⟨st0, rfl, by simp, fun _ h => h, by simp⟩
  | row :: rest, st0 => by
    intro h
    have hrow := h row (List.mem_cons_self _ _)
    have hrest : ∀ r ∈ rest, r = [] ∨ r.length = header.length :=
      fun r hr => h r (List.mem_cons_of_mem _ hr)
    by_cases he : row.isEmpty = true
    · have hre : row = [] := List.isEmpty_iff.mp he
      obtain ⟨st, hok, hd, hpres, hmem⟩ := loadRows_ok header rest st0 hrest
      refine ⟨st, ?_, ?_, hpres, ?_⟩
      · rw [loadRows, if_pos he]; exact hok
      · rw [hd, List.countP_cons]
        simp [he]
      · intro r hr k t hpr
        rcases List.mem_cons.mp hr with hr | hr
        · rw [hr, hre, parseRow_nil] at hpr; exact Option.noConfusion hpr
        · exact hmem r hr k t hpr
    · have hlen : row.length = header.length := by
        rcases hrow with hre | hlen
        · exact absurd (List.isEmpty_iff.mpr hre) he
        · exact hlen
      rcases hpr : parseRow header row with _ | kt
      · obtain ⟨st, hok, hd, hpres, hmem⟩ := loadRows_ok header rest
          { st0 with diags := st0.diags ++ ["Skipping lookup row due to error"] } hrest
        refine ⟨st, ?_, ?_, hpres, ?_⟩
        · rw [loadRows, if_neg he, if_pos hlen, hpr]; exact hok
        · rw [hd, List.countP_cons]
          simp [he, hpr]
          omega
        · intro r hr k t hpr'
          rcases List.mem_cons.mp hr with hr | hr
          · rw [hr, hpr] at hpr'; exact Option.noConfusion hpr'
          · exact hmem r hr k t hpr'
      · obtain ⟨k', t'⟩ := kt
        obtain ⟨st, hok, hd, hpres, hmem⟩ := loadRows_ok header rest
          { st0 with lookup := alSet st0.lookup k' t' } hrest
        refine ⟨st, ?_, ?_, ?_, ?_⟩
        · rw [loadRows, if_neg he, if_pos hlen, hpr]; exact hok
        · rw [hd, List.countP_cons]
          simp [he, hpr]
        · intro k hk
          exact hpres k (alGet_isSome_alSet st0.lookup k' k t' hk)
        · intro r hr k t hpr'
          rcases List.mem_cons.mp hr with hr | hr
          · rw [hr, hpr] at hpr'
            have heq : (k', t') = (k, t) := Option.some.inj hpr'
            have hk : k' = k := congrArg Prod.fst heq
            subst hk
            exact hpres k' (by simp [alGet_alSet_self])
          · exact hmem r hr k t hpr'

theorem loadRows_lastTag (header : List String) :
    ∀ (rows : List (List String)) (st0 st : LoadState),
      loadRows header rows st0 = .ok st →
      ∀ k : Int × String,
        alGet k st.lookup =
          match lastTag header rows k with
          | some t => some t
          | none => alGet k st0.lookup
  | [], st0, st => by
    intro hok k
    have : st0 = st := Except.ok.inj hok
    subst this
    rfl
  | row :: rest, st0, st => by
    intro hok k
    by_cases he : row.isEmpty = true
    · have hre : row = [] := List.isEmpty_iff.mp he
      rw [loadRows, if_pos he] at hok
      have ih := loadRows_lastTag header rest st0 st hok k
      rw [ih]
      have : lastTag header (row :: rest) k = lastTag header rest k := by
        rw [lastTag]
        rcases lastTag header rest k with _ | t
        · rw [hre, parseRow_nil]
        · rfl
      rw [this]
    · by_cases hlen : row.length = header.length
      · rcases hpr : parseRow header row with _ | kt
        · rw [loadRows, if_neg he, if_pos hlen, hpr] at hok
          have ih := loadRows_lastTag header rest _ st hok k
          rw [ih]
          have : lastTag header (row :: rest) k = lastTag header rest k := by
            rw [lastTag]
            rcases lastTag header rest k with _ | t
            · rw [hpr]
            · rfl
          rw [this]
        · obtain ⟨k', t'⟩ := kt
          rw [loadRows, if_neg he, if_pos hlen, hpr] at hok
          have ih := loadRows_lastTag header rest _ st hok k
          rw [ih, lastTag]
          rcases lastTag header rest k with _ | t
          · rw [hpr]
            by_cases hk : k' = k
            · subst hk
              simp [alGet_alSet_self]
            · simp only [if_neg hk]
              exact alGet_alSet_ne st0.lookup t' (fun hh => hk hh.symm)
          · rfl
      · rw [loadRows, if_neg he, if_neg hlen] at hok
        exact Except.noConfusion hok

theorem lastTag_append (header : List String) (k : Int × String) :
    ∀ (xs ys : List (List String)),
      lastTag header (xs ++ ys) k =
        match lastTag header ys k with
        | some t => some t
        | none => lastTag header xs k
  | [], ys => by
    rw [List.nil_append]
    rcases h : lastTag header ys k with _ | t <;> rfl
  | x :: xs, ys => by
    rw [List.cons_append, lastTag, lastTag_append header k xs ys, lastTag]
    rcases lastTag header ys k with _ | t
    · rfl
    · rfl

theorem lastTag_none (header : List String) (k : Int × String) :
    ∀ rows : List (List String),
      (∀ r ∈ rows, ∀ t, parseRow header r ≠ some (k, t)) →
      lastTag header rows k = none
  | [], _ => rfl
  | row :: rest, h => by
    rw [lastTag, lastTag_none header k rest
      (fun r hr => h r (List.mem_cons_of_mem _ hr))]
    rcases hpr : parseRow header row with _ | ⟨k', t'⟩
    · rfl
    · have hk : k' ≠ k := by
        intro hkk
        exact h row (List.mem_cons_self _ _) t' (hkk ▸ hpr)
      show (if k' = k then some t' else none) = none
      rw [if_neg hk]

theorem parseRow_some_proto (header row : List String) (port : Int) (proto t : String)
    (h : parseRow header row = some ((port, proto), t)) :
    ∃ s, proto = pyLower (pyStrip s) := by
  simp only [parseRow] at h
  rcases hds : dictGet ((header.zip row).map
      (fun p => (pyStrip p.1, pyStrip p.2))) "dstport" with _ | ds
  · simp [hds] at h
  rcases hps : dictGet ((header.zip row).map
      (fun p => (pyStrip p.1, pyStrip p.2))) "protocol" with _ | ps
  · simp [hds, hps] at h
  rcases hts : dictGet ((header.zip row).map
      (fun p => (pyStrip p.1, pyStrip p.2))) "tag" with _ | ts
  · simp [hds, hps, hts] at h
  rcases hpi : pyInt (pyStrip ds) with _ | port'
  · simp [hds, hps, hts, hpi] at h
  · simp [hds, hps, hts, hpi] at h
    exact ⟨ps, h.1.2.symm⟩

theorem loadRows_entries_normal (header : List String) :
    ∀ (rows : List (List String)) (st0 st : LoadState),
      loadRows header rows st0 = .ok st →
      (∀ e ∈ st0.lookup, pyLower e.1.2 = e.1.2 ∧ pyStrip e.1.2 = e.1.2) →
      ∀ e ∈ st.lookup, pyLower e.1.2 = e.1.2 ∧ pyStrip e.1.2 = e.1.2
  | [], st0, st => by
    intro hok h0
    have : st0 = st := Except.ok.inj hok
    subst this
    exact h0
  | row :: rest, st0, st => by
    intro hok h0
    by_cases he : row.isEmpty = true
    · rw [loadRows, if_pos he] at hok
      exact loadRows_entries_normal header rest st0 st hok h0
    · by_cases hlen : row.length = header.length
      · rcases hpr : parseRow header row with _ | kt
        · rw [loadRows, if_neg he, if_pos hlen, hpr] at hok
          exact loadRows_entries_normal header rest _ st hok h0
        · obtain ⟨⟨port, proto⟩, t'⟩ := kt
          rw [loadRows, if_neg he, if_pos hlen, hpr] at hok
          refine loadRows_entries_normal header rest _ st hok ?_
          intro e he'
          rcases mem_alSet st0.lookup _ _ e he' with hmem | heq
          · exact h0 e hmem
          · subst heq
            obtain ⟨s, hs⟩ := parseRow_some_proto header row port proto t' hpr
            constructor
            · show pyLower proto = proto
              rw [hs, pyLower_idem]
            · show pyStrip proto = proto
              rw [hs, pyStrip_pyLower, pyStrip_idem]
      · rw [loadRows, if_neg he, if_neg hlen] at hok
        exact Except.noConfusion hok

theorem strLeB_trans (a b c : String) (h1 : strLeB a b = true) (h2 : strLeB b c = true) :
    strLeB a c = true := by
  simp only [strLeB, decide_eq_true_eq] at h1 h2 ⊢
  exact le_trans h1 h2

theorem strLeB_total (a b : String) : (strLeB a b || strLeB b a) = true := by
  simp only [strLeB, Bool.or_eq_true, decide_eq_true_eq]
  exact le_total a b

theorem sorted_sortedTagKeys (tc : List (String × Nat)) :
    List.Sorted (· ≤ ·) (sortedTagKeys tc) := by
  have h := List.sorted_mergeSort strLeB_trans strLeB_total (tc.map Prod.fst)
  exact h.imp (fun hab => by simpa [strLeB, decide_eq_true_eq] using hab)

theorem perm_sortedTagKeys (tc : List (String × Nat)) :
    (sortedTagKeys tc).Perm (tc.map Prod.fst) :=
  List.mergeSort_perm _ _

theorem ppLe_trans (a b c : Int × String) (h1 : ppLe a b) (h2 : ppLe b c) : ppLe a c := by
  rcases h1 with h1 | ⟨h1e, h1s⟩ <;> rcases h2 with h2 | ⟨h2e, h2s⟩
  · exact Or.inl (lt_trans h1 h2)
  · exact Or.inl (h2e ▸ h1)
  · exact Or.inl (h1e ▸ h2)
  · exact Or.inr ⟨h1e.trans h2e, le_trans h1s h2s⟩

theorem ppLe_total (a b : Int × String) : ppLe a b ∨ ppLe b a := by
  rcases lt_trichotomy a.1 b.1 with h | h | h
  · exact Or.inl (Or.inl h)
  · rcases le_total a.2 b.2 with hs | hs
    · exact Or.inl (Or.inr ⟨h, hs⟩)
    · exact Or.inr (Or.inr ⟨h.symm, hs⟩)
  · exact Or.inr (Or.inl h)

theorem ppLe_antisymm (a b : Int × String) (h1 : ppLe a b) (h2 : ppLe b a) : a = b := by
  rcases h1 with h1 | ⟨h1e, h1s⟩ <;> rcases h2 with h2 | ⟨h2e, h2s⟩
  · exact absurd (lt_trans h1 h2) (lt_irrefl _)
  · exact absurd (h2e ▸ h1) (lt_irrefl _)
  · exact absurd (h1e ▸ h2) (lt_irrefl _)
  · exact Prod.ext h1e (le_antisymm h1s h2s)

theorem ppLt_of_ppLe_ne (a b : Int × String) (h : ppLe a b) (hne : a ≠ b) : ppLt a b := by
  rcases h with h | ⟨he, hs⟩
  · exact Or.inl h
  · refine Or.inr ⟨he, lt_of_le_of_ne hs fun hss => hne (Prod.ext he hss)⟩

theorem ppLeB_trans (a b c : Int × String) (h1 : ppLeB a b = true) (h2 : ppLeB b c = true) :
    ppLeB a c = true := by
  simp only [ppLeB, decide_eq_true_eq] at h1 h2 ⊢
  exact ppLe_trans a b c h1 h2

theorem ppLeB_total (a b : Int × String) : (ppLeB a b || ppLeB b a) = true := by
  simp only [ppLeB, Bool.or_eq_true, decide_eq_true_eq]
  exact ppLe_total a b

theorem sorted_sortedPPKeys (pp : List ((Int × String) × Nat)) :
    List.Sorted ppLe (sortedPPKeys pp) := by
  have h := List.sorted_mergeSort ppLeB_trans ppLeB_total (pp.map Prod.fst)
  exact h.imp (fun hab => by simpa [ppLeB, decide_eq_true_eq] using hab)

theorem perm_sortedPPKeys (pp : List ((Int × String) × Nat)) :
    (sortedPPKeys pp).Perm (pp.map Prod.fst) :=
  List.mergeSort_perm _ _

theorem sorted_ppLt_of_nodup :
    ∀ l : List (Int × String), List.Sorted ppLe l → l.Nodup → List.Sorted ppLt l
  | [], _, _ => List.Pairwise.nil
  | a :: l, hs, hn => by
    rw [List.sorted_cons] at hs
    rw [List.nodup_cons] at hn
    refine List.Pairwise.cons ?_ (sorted_ppLt_of_nodup l hs.2 hn.2)
    intro b hb
    refine ppLt_of_ppLe_ne a b (hs.1 b hb) ?_
    intro hab
    exact hn.1 (hab ▸ hb)

theorem alGet_perm {α β : Type} [DecidableEq α] {d₁ d₂ : List (α × β)} (h : d₁.Perm d₂) :
    (d₁.map Prod.fst).Nodup → ∀ k, alGet k d₁ = alGet k d₂ := by
  induction h with
  | nil => intro _ _; rfl
  | cons x h ih =>
    intro hn k
    obtain ⟨kx, vx⟩ := x
    rw [List.map_cons, List.nodup_cons] at hn
    by_cases hk : kx = k
    · simp [alGet, hk]
    · simp only [alGet, if_neg hk]
      exact ih hn.2 k
  | swap x y l =>
    intro hn k
    obtain ⟨kx, vx⟩ := x
    obtain ⟨ky, vy⟩ := y
    rw [List.map_cons, List.map_cons, List.nodup_cons] at hn
    have hyx : ky ≠ kx := fun hh => hn.1 (by rw [hh]; exact List.mem_cons_self _ _)
    by_cases hk : ky = k
    · subst hk
      have hxk : ¬ kx = ky := fun hh => hyx hh.symm
      simp [alGet, hxk]
    · by_cases hk2 : kx = k
      · subst hk2
        simp [alGet, hk]
      · simp [alGet, hk, hk2]
  | trans h1 h2 ih1 ih2 =>
    intro hn k
    have hn2 := ((h1.map Prod.fst).nodup hn)
    rw [ih1 hn k, ih2 hn2 k]

theorem sortedTagKeys_perm_eq (tc₁ tc₂ : List (String × Nat)) (h : tc₁.Perm tc₂) :
    sortedTagKeys tc₁ = sortedTagKeys tc₂ := by
  haveI : IsAntisymm String (· ≤ ·) := ⟨fun a b => le_antisymm⟩
  refine List.eq_of_perm_of_sorted ?_ (sorted_sortedTagKeys tc₁) (sorted_sortedTagKeys tc₂)
  exact (perm_sortedTagKeys tc₁).trans ((h.map Prod.fst).trans (perm_sortedTagKeys tc₂).symm)

theorem sortedPPKeys_perm_eq (pp₁ pp₂ : List ((Int × String) × Nat)) (h : pp₁.Perm pp₂) :
    sortedPPKeys pp₁ = sortedPPKeys pp₂ := by
  haveI : IsAntisymm (Int × String) ppLe := ⟨ppLe_antisymm⟩
  refine List.eq_of_perm_of_sorted ?_ (sorted_sortedPPKeys pp₁) (sorted_sortedPPKeys pp₂)
  exact (perm_sortedPPKeys pp₁).trans ((h.map Prod.fst).trans (perm_sortedPPKeys pp₂).symm)

theorem loadRows_diags (header : List String) :
    ∀ (rows : List (List String)) (st0 st : LoadState),
      loadRows header rows st0 = .ok st →
      st.diags.length = st0.diags.length +
        rows.countP (fun r => !r.isEmpty && (parseRow header r).isNone)
  | [], st0, st => by
    intro hok
    have : st0 = st := Except.ok.inj hok
    subst this
    simp
  | row :: rest, st0, st => by
    intro hok
    by_cases he : row.isEmpty = true
    · rw [loadRows, if_pos he] at hok
      rw [loadRows_diags header rest st0 st hok, List.countP_cons]
      simp [he]
    · by_cases hlen : row.length = header.length
      · rcases hpr : parseRow header row with _ | ⟨k', t'⟩
        · rw [loadRows, if_neg he, if_pos hlen, hpr] at hok
          rw [loadRows_diags header rest _ st hok, List.countP_cons]
          simp [he, hpr]
          omega
        · rw [loadRows, if_neg he, if_pos hlen, hpr] at hok
          rw [loadRows_diags header rest _ st hok, List.countP_cons]
          simp [he, hpr]
      · rw [loadRows, if_neg he, if_neg hlen] at hok
        exact Except.noConfusion hok

/-- Claim C1, counterexample.  The claim says a lookup row with a missing
column is merely skipped and `load` never aborts.  In the source the strip
comprehension on line 51 sits outside the `try`, so the CSV data row
`80,tcp` — one cell short of the `dstport,protocol,tag` header — makes
`None.strip()` raise an uncaught `AttributeError` and the load aborts. -/
theorem c1_counterexample :
    load_lookup ["dstport", "protocol", "tag"] [["80", "tcp"]] =
      .error "AttributeError: NoneType has no attribute strip" := by
  decide

/-- Claim C1, amended.  Provided every data row has exactly as many cells as
the header (rows the csv reader drops as empty aside), a malformed row
(missing header column, non-numeric port, or any exception inside the
per-row `try`) only causes that row to be skipped with one diagnostic;
the load completes and the resulting LookupTable contains an entry for the
key of every well-formed row. -/
theorem c1_load_skips_bad_rows (header : List String) (rows : List (List String))
    (h : ∀ r ∈ rows, r = [] ∨ r.length = header.length) :
    ∃ st, load_lookup header rows = .ok st ∧
      st.diags.length = rows.countP (fun r => !r.isEmpty && (parseRow header r).isNone) ∧
      ∀ r ∈ rows, ∀ (k : Int × String) (t : String),
        parseRow header r = some (k, t) → (alGet k st.lookup).isSome := by
  obtain ⟨st, hok, hd, _, hmem⟩ := loadRows_ok header rows ⟨[], []⟩ h
  exact ⟨st, hok, by simpa using hd, hmem⟩

/-- Claim C1, witness: a good row, a bad-port row and an empty row load
without aborting. -/
theorem c1_witness :
    ∃ st, load_lookup ["dstport", "protocol", "tag"]
        [["80", "tcp", "web"], ["xx", "udp", "y"], []] = .ok st ∧
      st.diags.length = [["80", "tcp", "web"], ["xx", "udp", "y"], []].countP
        (fun r => !r.isEmpty &&
          (parseRow ["dstport", "protocol", "tag"] r).isNone) ∧
      ∀ r ∈ [["80", "tcp", "web"], ["xx", "udp", "y"], ([] : List String)],
        ∀ (k : Int × String) (t : String),
          parseRow ["dstport", "protocol", "tag"] r = some (k, t) →
            (alGet k st.lookup).isSome :=
  c1_load_skips_bad_rows ["dstport", "protocol", "tag"]
    [["80", "tcp", "web"], ["xx", "udp", "y"], []] (by decide)

/-- Claim C2, counterexample.  The claim says every LookupTable key has a
non-negative port.  Python `int()` accepts negative numbers, so the row
`-1,TCP,x` is not skipped: it loads the key `(-1, "tcp")`. -/
theorem c2_counterexample :
    load_lookup ["dstport", "protocol", "tag"] [["-1", "TCP", "x"]] =
      .ok ⟨[(((-1 : Int), "tcp"), "x")], []⟩ ∧ ((-1 : Int) < 0) := by
  refine ⟨by decide, by decide⟩

/-- Claim C2, amended.  After a completed load every key of the LookupTable
is a pair of an integer (possibly negative — `int()` accepts a sign) and a
lowercase, whitespace-trimmed protocol string; a row whose dstport cell does
not parse as a Python integer is skipped with a diagnostic. -/
theorem c2_keys_lower_trimmed (header : List String) (rows : List (List String))
    (st : LoadState) (hok : load_lookup header rows = .ok st) :
    (∀ e ∈ st.lookup, pyLower e.1.2 = e.1.2 ∧ pyStrip e.1.2 = e.1.2) ∧
    st.diags.length =
      rows.countP (fun r => !r.isEmpty && (parseRow header r).isNone) := by
  refine ⟨loadRows_entries_normal header rows ⟨[], []⟩ st hok (by simp), ?_⟩
  simpa using loadRows_diags header rows ⟨[], []⟩ st hok

/-- Claim C2, witness: a load with a mixed-case protocol and a bad-port row. -/
theorem c2_witness :
    (∀ e ∈ (LoadState.mk [(((80 : Int), "tcp"), "web")]
        ["Skipping lookup row due to error"]).lookup,
      pyLower e.1.2 = e.1.2 ∧ pyStrip e.1.2 = e.1.2) ∧
    (LoadState.mk [(((80 : Int), "tcp"), "web")]
        ["Skipping lookup row due to error"]).diags.length =
      [["80", " TcP ", "web"], ["x", "udp", "y"]].countP
        (fun r => !r.isEmpty &&
          (parseRow ["dstport", "protocol", "tag"] r).isNone) :=
  c2_keys_lower_trimmed ["dstport", "protocol", "tag"]
    [["80", " TcP ", "web"], ["x", "udp", "y"]]
    ⟨[(((80 : Int), "tcp"), "web")], ["Skipping lookup row due to error"]⟩ (by decide)

/-- Claim C3.  After any run over any lookup table and line list (hence at
every intermediate point, taking a prefix of the lines), the sum of the
tag-count values and the sum of the port/protocol-count values both equal
the number of successfully classified lines: each classified line bumps
exactly one entry of each table by exactly one. -/
theorem c3_sum_counts (lookup : List ((Int × String) × String)) (lines : List String) :
    sumVals (parse_flow_logs lookup lines).tag_counts = lines.countP validLine ∧
    sumVals (parse_flow_logs lookup lines).port_proto_counts = lines.countP validLine := by
  have h := parse_fold_sums lookup lines ⟨[], [], []⟩
  unfold parse_flow_logs
  simpa [sumVals] using h

/-- Claim C4.  A blank (whitespace-only) line is skipped silently leaving the
state untouched; a non-blank line with fewer than 8 fields, or with a
non-integer field 6 or 7, is skipped with one diagnostic; in every case
neither tag_counts nor port_proto_counts changes. -/
theorem c4_skip_rules (lookup : List ((Int × String) × String)) (st : ParseState)
    (line : String) :
    (pyStrip line = "" → process_line lookup st line = st) ∧
    (pyStrip line ≠ "" → (pySplit (pyStrip line)).length < 8 →
      process_line lookup st line =
        { st with diags := st.diags ++ ["Skipping malformed line: " ++ line] }) ∧
    (pyStrip line ≠ "" → 8 ≤ (pySplit (pyStrip line)).length →
      (pyInt ((pySplit (pyStrip line)).getD 6 "") = none ∨
       pyInt ((pySplit (pyStrip line)).getD 7 "") = none) →
      process_line lookup st line =
        { st with diags := st.diags ++ ["Error parsing numeric values in line: " ++ line] }) :=
  ⟨process_line_blank lookup st line,
   process_line_short lookup st line,
   process_line_badnum lookup st line⟩

/-- Claim C4, witness: a blank line, a five-token line and an eight-token
line with a non-numeric port, each against the empty state. -/
theorem c4_witness :
    process_line [] ⟨[], [], []⟩ "   " = ⟨[], [], []⟩ ∧
    process_line [] ⟨[], [], []⟩ "a b c d e" =
      ⟨[], [], ["Skipping malformed line: a b c d e"]⟩ ∧
    process_line [] ⟨[], [], []⟩ "a b c d e f g h" =
      ⟨[], [], ["Error parsing numeric values in line: a b c d e f g h"]⟩ :=
  ⟨(c4_skip_rules [] ⟨[], [], []⟩ "   ").1 (by decide),
   (c4_skip_rules [] ⟨[], [], []⟩ "a b c d e").2.1 (by decide) (by decide),
   (c4_skip_rules [] ⟨[], [], []⟩ "a b c d e f g h").2.2 (by decide) (by decide)
     (Or.inl (by decide))⟩

/-- Claim C5.  The protocol name is a function of field 7 alone: 6, 17 and 1
map to "tcp", "udp" and "icmp"; any other number maps to its decimal string
representation; and the result is always fixed by lowercasing. -/
theorem c5_protocol_names :
    protoName 6 = "tcp" ∧ protoName 17 = "udp" ∧ protoName 1 = "icmp" ∧
    (∀ n : Int, n ≠ 6 → n ≠ 17 → n ≠ 1 → protoName n = toString n) ∧
    (∀ n : Int, pyLower (protoName n) = protoName n) := by
  refine ⟨by decide, by decide, by decide, ?_, ?_⟩
  · intro n h6 h17 h1
    have hget : alGet n PROTOCOL_MAP = none := by
      simp [alGet, PROTOCOL_MAP, Ne.symm h6, Ne.symm h17, Ne.symm h1]
    unfold protoName
    rw [hget]
    exact pyLower_toString_int n
  · intro n
    unfold protoName
    exact pyLower_idem _

/-- Claim C5, witness: 99 is not registered, so it maps to "99", which is
lowercase. -/
theorem c5_witness : protoName 99 = toString (99 : Int) ∧
    pyLower (protoName 99) = protoName 99 :=
  ⟨c5_protocol_names.2.2.2.1 99 (by decide) (by decide) (by decide),
   c5_protocol_names.2.2.2.2 99⟩

/-- Claim C6.  For a valid line the counted tag is the LookupTable value at
(destination port, protocol name) when that key is bound, and the literal
"Untagged" otherwise. -/
theorem c6_tag_resolution (lookup : List ((Int × String) × String)) (st : ParseState)
    (line : String) (p n : Int) (h1 : pyStrip line ≠ "")
    (h2 : 8 ≤ (pySplit (pyStrip line)).length)
    (hp : pyInt ((pySplit (pyStrip line)).getD 6 "") = some p)
    (hn : pyInt ((pySplit (pyStrip line)).getD 7 "") = some n) :
    (∀ t, alGet (p, protoName n) lookup = some t →
      (process_line lookup st line).tag_counts = alIncr st.tag_counts t) ∧
    (alGet (p, protoName n) lookup = none →
      (process_line lookup st line).tag_counts = alIncr st.tag_counts "Untagged") := by
  constructor
  · intro t ht
    rw [process_line_valid lookup st line p n h1 h2 hp hn]
    simp [ht]
  · intro hnone
    rw [process_line_valid lookup st line p n h1 h2 hp hn]
    simp [hnone]

/-- Claim C6, witness: the spec scenario line against the rule 80,tcp,web,
read once with the matching rule and once with an empty table. -/
theorem c6_witness :
    (process_line [(((80 : Int), "tcp"), "web")] ⟨[], [], []⟩
        "2 123456789012 eni-abc 10.0.0.1 10.0.0.2 443 80 6 10 1000 0 10 ACCEPT OK").tag_counts =
      alIncr ([] : List (String × Nat)) "web" ∧
    (process_line [] ⟨[], [], []⟩
        "2 123456789012 eni-abc 10.0.0.1 10.0.0.2 443 80 6 10 1000 0 10 ACCEPT OK").tag_counts =
      alIncr ([] : List (String × Nat)) "Untagged" :=
  ⟨(c6_tag_resolution [(((80 : Int), "tcp"), "web")] ⟨[], [], []⟩
      "2 123456789012 eni-abc 10.0.0.1 10.0.0.2 443 80 6 10 1000 0 10 ACCEPT OK"
      80 6 (by decide) (by decide) (by decide) (by decide)).1 "web" (by decide),
   (c6_tag_resolution [] ⟨[], [], []⟩
      "2 123456789012 eni-abc 10.0.0.1 10.0.0.2 443 80 6 10 1000 0 10 ACCEPT OK"
      80 6 (by decide) (by decide) (by decide) (by decide)).2 (by decide)⟩

/-- Claim C7.  In the rendered report, the tag rows are listed in strictly
increasing lexicographic (code-point) order of the tag, and the
port/protocol rows in strictly increasing order of (numeric port, protocol
string), for the accumulated state of any run. -/
theorem c7_output_sorted (lookup : List ((Int × String) × String)) (lines : List String) :
    List.Sorted (· < ·) (sortedTagKeys (parse_flow_logs lookup lines).tag_counts) ∧
    List.Sorted ppLt (sortedPPKeys (parse_flow_logs lookup lines).port_proto_counts) := by
  obtain ⟨hn1, hn2⟩ := parse_fold_nodup lookup lines ⟨[], [], []⟩ (by simp) (by simp)
  unfold parse_flow_logs
  constructor
  · exact List.Sorted.lt_of_le (sorted_sortedTagKeys _)
      ((perm_sortedTagKeys _).symm.nodup hn1)
  · exact sorted_ppLt_of_nodup _ (sorted_sortedPPKeys _)
      ((perm_sortedPPKeys _).symm.nodup hn2)

/-- Claim C8.  If the lookup rows contain two well-formed rows with the same
(dstport, protocol) key and no later row rebinds that key, a completed load
maps the key to the tag of the later of the two rows (silent overwrite). -/
theorem c8_last_rule_wins (header : List String) (pre mid post : List (List String))
    (a b : List String) (k : Int × String) (ta tb : String) (st : LoadState)
    (_ha : parseRow header a = some (k, ta))
    (hb : parseRow header b = some (k, tb))
    (hpost : ∀ c ∈ post, ∀ t, parseRow header c ≠ some (k, t))
    (hok : load_lookup header (pre ++ a :: mid ++ b :: post) = .ok st) :
    alGet k st.lookup = some tb := by
  have hlast := loadRows_lastTag header (pre ++ a :: mid ++ b :: post) ⟨[], []⟩ st hok k
  have hpostnone := lastTag_none header k post hpost
  have hb' : lastTag header (b :: post) k = some tb := by
    rw [lastTag, hpostnone, hb]
    simp
  have h1 : lastTag header (pre ++ a :: mid ++ b :: post) k = some tb := by
    rw [lastTag_append header k (pre ++ a :: mid) (b :: post), hb']
  rw [hlast, h1]

/-- Claim C8, witness: rows 80,tcp,A then 80,TCP,B produce the tag B for the
key (80, "tcp"). -/
theorem c8_witness :
    alGet ((80 : Int), "tcp")
      (LoadState.mk [(((80 : Int), "tcp"), "B")] []).lookup = some "B" :=
  c8_last_rule_wins ["dstport", "protocol", "tag"] [] [] []
    ["80", "tcp", "A"] ["80", "TCP", "B"] (80, "tcp") "A" "B"
    ⟨[(((80 : Int), "tcp"), "B")], []⟩ (by decide) (by decide)
    (fun c hc => absurd hc (List.not_mem_nil c)) (by decide)

/-- Claim C9.  Rendering is a pure function of the accumulated counters as
maps: two states whose counter lists are permutations of each other (same
bindings in any insertion order, keys unique) render byte-identical text, so
the explicit sorting leaves no iteration-order dependency; and since the
whole pipeline is a function of its inputs, two runs on identical inputs
render identical reports. -/
theorem c9_render_deterministic (s₁ s₂ : ParseState)
    (htc : s₁.tag_counts.Perm s₂.tag_counts)
    (hpp : s₁.port_proto_counts.Perm s₂.port_proto_counts)
    (hn₁ : (s₁.tag_counts.map Prod.fst).Nodup)
    (hn₂ : (s₁.port_proto_counts.map Prod.fst).Nodup) :
    write_output s₁ = write_output s₂ := by
  unfold write_output
  rw [sortedTagKeys_perm_eq _ _ htc, sortedPPKeys_perm_eq _ _ hpp]
  have h1 : (sortedTagKeys s₂.tag_counts).map (tagLine s₁.tag_counts) =
      (sortedTagKeys s₂.tag_counts).map (tagLine s₂.tag_counts) :=
    List.map_congr_left (fun t _ => by unfold tagLine; rw [alGet_perm htc hn₁ t])
  have h2 : (sortedPPKeys s₂.port_proto_counts).map (ppLine s₁.port_proto_counts) =
      (sortedPPKeys s₂.port_proto_counts).map (ppLine s₂.port_proto_counts) :=
    List.map_congr_left (fun kk _ => by unfold ppLine; rw [alGet_perm hpp hn₂ kk])
  rw [h1, h2]

/-- Claim C9, witness: two permuted two-entry states render the same text. -/
theorem c9_witness :
    write_output ⟨[("b", 2), ("a", 1)], [((1, "tcp"), 3), ((0, "udp"), 4)], []⟩ =
      write_output ⟨[("a", 1), ("b", 2)], [((0, "udp"), 4), ((1, "tcp"), 3)], []⟩ :=
  c9_render_deterministic
    ⟨[("b", 2), ("a", 1)], [((1, "tcp"), 3), ((0, "udp"), 4)], []⟩
    ⟨[("a", 1), ("b", 2)], [((0, "udp"), 4), ((1, "tcp"), 3)], []⟩
    (by decide) (by decide) (by decide) (by decide)

/-- Claim C10.  When the lookup table binds some key to the literal tag
"Untagged", the "Untagged" count conflates the lines matched by such rules
with the lines matched by no rule: it equals exactly their sum. -/
theorem c10_untagged_conflation (lookup : List ((Int × String) × String))
    (lines : List String) (_h : ∃ k, alGet k lookup = some "Untagged") :
    (alGet "Untagged" (parse_flow_logs lookup lines).tag_counts).getD 0 =
      lines.countP (matchedUntagged lookup) + lines.countP (unmatchedLine lookup) := by
  have hpoint : ∀ l ∈ lines,
      (decide (resolvedTag lookup l = some "Untagged")) =
        (matchedUntagged lookup l || unmatchedLine lookup l) := by
    intro l _
    unfold resolvedTag matchedUntagged unmatchedLine
    rcases hk : lineKey l with _ | k
    · simp
    · simp only [Option.map_some]
      rcases hg : alGet k lookup with _ | t
      · simp [hg]
      · by_cases ht : t = "Untagged" <;> simp [hg, ht]
  have hdisj : ∀ l ∈ lines,
      ¬(matchedUntagged lookup l = true ∧ unmatchedLine lookup l = true) := by
    intro l _
    unfold matchedUntagged unmatchedLine
    rcases hk : lineKey l with _ | k
    · simp
    · rcases hg : alGet k lookup with _ | t <;> simp [hg]
  have hmaster := parse_fold_tagcount lookup "Untagged" lines ⟨[], [], []⟩
  unfold parse_flow_logs
  rw [hmaster]
  have h0 : (alGet "Untagged" (ParseState.mk [] [] []).tag_counts).getD 0 = 0 := rfl
  rw [h0, Nat.zero_add,
    countP_ext _ _ lines hpoint, countP_or_disjoint _ _ lines hdisj]

/-- Claim C10, witness: one line matched by an "Untagged"-tagged rule and one
unmatched line give an "Untagged" count of two, their sum. -/
theorem c10_witness :
    (alGet "Untagged"
        (parse_flow_logs [(((80 : Int), "tcp"), "Untagged")]
          ["1 2 3 4 5 6 80 6", "1 2 3 4 5 6 443 6"]).tag_counts).getD 0 =
      ["1 2 3 4 5 6 80 6", "1 2 3 4 5 6 443 6"].countP
        (matchedUntagged [(((80 : Int), "tcp"), "Untagged")]) +
      ["1 2 3 4 5 6 80 6", "1 2 3 4 5 6 443 6"].countP
        (unmatchedLine [(((80 : Int), "tcp"), "Untagged")]) :=
  c10_untagged_conflation [(((80 : Int), "tcp"), "Untagged")]
    ["1 2 3 4 5 6 80 6", "1 2 3 4 5 6 443 6"] ⟨(80, "tcp"), by decide⟩

end FlowLog
